import Mathlib

/-!
Verification of the IR wrapper layer (blocks, operations, registration utilities).

The layer under verification is a safe binding over an external IR engine
(the MLIR C API).  The engine owns the actual graph of operations, blocks and
regions; the wrapper calls into it through opaque handles.  We embed the engine
as an explicit state (`Engine`): association lists from raw handles to the data
the engine keeps for each object, plus a destruction counter used to reason
about ownership transfer.  Raw handles are natural numbers, with `0` playing
the role of the null pointer (the wrapper tests `ptr.is_null()`).

Each `mlir...` definition models one engine primitive of the C API, which the
spec treats as an opaque, correct external collaborator; each wrapper method
(`Block.new`, `BlockRef.argument`, `BlockRef.detach`, `OperationRef.result`,
`BlockRef.append_operation`, ...) is translated from `src/ir/block.rs`,
`src/ir/operation.rs` and `src/utility.rs`.  Engine getters and printers are
read-only on the IR graph, so they are embedded as pure functions of the
engine state; mutating primitives take and return the state.
-/

namespace Melior

/-- Raw engine handle. `0` models the null pointer returned by the engine for
absent parents and siblings. -/
abbrev Raw := Nat

/-- Engine-side data of one block: argument types and locations (as passed to
`mlirBlockCreate`), the ordered sequence of operations it contains, and the
optional parent region. -/
structure BlockData where
  argTypes : List Raw
  argLocs : List Raw
  ops : List Raw
  parentRegion : Option Raw
  deriving Repr, DecidableEq

/-- Engine-side data of one operation: name, result types, owned regions and
the optional parent block. -/
structure OpData where
  name : String
  results : List Raw
  regions : List Raw
  parentBlock : Option Raw
  deriving Repr, DecidableEq

/-- Engine-side data of one region: its ordered blocks and optional parent
operation. -/
structure RegionData where
  blocks : List Raw
  parentOp : Option Raw
  deriving Repr, DecidableEq

/-- The state of the external IR engine: handle tables for blocks, operations
and regions, a fresh-handle counter, and a per-handle count of how many times
the engine destroy primitive was invoked (used to verify that ownership
transfer suppresses host-side destructors). -/
structure Engine where
  blocks : List (Raw × BlockData)
  ops : List (Raw × OpData)
  regions : List (Raw × RegionData)
  nextHandle : Raw
  destroys : List (Raw × Nat)
  deriving Repr, DecidableEq

/-- First-match lookup in a handle table. -/
def lookupFirst {β : Type} (k : Raw) : List (Raw × β) → Option β
  | [] => none
  | (k2, v) :: rest => if k2 = k then some v else lookupFirst k rest

/-- Update the first entry of a handle table bound to `k`. -/
def updateFirst {β : Type} (k : Raw) (f : β → β) : List (Raw × β) → List (Raw × β)
  | [] => []
  | (k2, v) :: rest => if k2 = k then (k2, f v) :: rest else (k2, v) :: updateFirst k f rest

/-- Increment the counter bound to `k`, inserting it at `1` when absent. -/
def bumpFirst (k : Raw) : List (Raw × Nat) → List (Raw × Nat)
  | [] => [(k, 1)]
  | (k2, n) :: rest => if k2 = k then (k2, n + 1) :: rest else (k2, n) :: bumpFirst k rest

def Engine.blockData (e : Engine) (h : Raw) : Option BlockData :=
  lookupFirst h e.blocks

def Engine.opData (e : Engine) (h : Raw) : Option OpData :=
  lookupFirst h e.ops

def Engine.regionData (e : Engine) (h : Raw) : Option RegionData :=
  lookupFirst h e.regions

/-- How many times the engine destroy primitive has run on handle `h`. -/
def Engine.destroyCount (e : Engine) (h : Raw) : Nat :=
  (lookupFirst h e.destroys).getD 0

/-- Convert an optional handle to the raw (possibly null) pointer the engine
returns. -/
def rawOfOption : Option Raw → Raw
  | none => 0
  | some h => h

/-- Null check performed by the wrappers (`ptr.is_null()` /
`from_option_raw`). -/
def optionOfRaw (h : Raw) : Option Raw :=
  if h = 0 then none else some h

/-- A block-argument value: identified positionally by its block and
position. -/
structure Argument where
  block : Raw
  position : Nat
  deriving Repr, DecidableEq

/-- An operation-result value: identified positionally by its operation and
position. -/
structure ResultValue where
  operation : Raw
  position : Nat
  deriving Repr, DecidableEq

/-! Engine primitives (the MLIR C API, modelled as the opaque external
collaborator the spec assumes correct). -/

/-- Models `mlirBlockCreate`: allocates a brand-new, parentless, empty block
with the given argument types and locations. Allocated handles are always
nonzero. -/
def mlirBlockCreate (e : Engine) (argTypes argLocs : List Raw) : Engine × Raw :=
  let h := e.nextHandle + 1
  let bd : BlockData :=
    { argTypes := argTypes, argLocs := argLocs, ops := [], parentRegion := none }
  ({ e with blocks := (h, bd) :: e.blocks, nextHandle := h }, h)

/-- Models `mlirBlockGetNumArguments`. -/
def mlirBlockGetNumArguments (e : Engine) (h : Raw) : Nat :=
  match e.blockData h with
  | some bd => bd.argTypes.length
  | none => 0

/-- Models `mlirBlockGetArgument`: the value at a position of a block
(values are positional). -/
def mlirBlockGetArgument (h : Raw) (position : Nat) : Argument :=
  { block := h, position := position }

/-- Models `mlirBlockGetFirstOperation` (null when the block is empty). -/
def mlirBlockGetFirstOperation (e : Engine) (h : Raw) : Raw :=
  match e.blockData h with
  | some bd => rawOfOption bd.ops.head?
  | none => 0

/-- Models `mlirBlockGetParentRegion` (null when unattached). -/
def mlirBlockGetParentRegion (e : Engine) (h : Raw) : Raw :=
  match e.blockData h with
  | some bd => rawOfOption bd.parentRegion
  | none => 0

/-- Models `mlirBlockGetParentOperation`: the operation owning the parent
region, null when the block is unattached. -/
def mlirBlockGetParentOperation (e : Engine) (h : Raw) : Raw :=
  match e.blockData h with
  | some bd =>
    match bd.parentRegion with
    | some r =>
      match e.regionData r with
      | some rd => rawOfOption rd.parentOp
      | none => 0
    | none => 0
  | none => 0

/-- Models `mlirBlockDetach`: unlinks the block from its parent region. -/
def mlirBlockDetach (e : Engine) (h : Raw) : Engine :=
  match e.blockData h with
  | some bd =>
    let e2 : Engine :=
      match bd.parentRegion with
      | some r =>
        let rs := updateFirst r
          (fun rd : RegionData => { rd with blocks := rd.blocks.erase h }) e.regions
        { e with regions := rs }
      | none => e
    let bs := updateFirst h (fun bd2 : BlockData => { bd2 with parentRegion := none }) e2.blocks
    { e2 with blocks := bs }
  | none => e

/-- Insert `x` at absolute index `pos` (appending when `pos` is past the
end). -/
def insertAtPos (pos : Nat) (x : Raw) (l : List Raw) : List Raw :=
  l.take pos ++ x :: l.drop pos

/-- Insert `x` immediately after the first occurrence of `anchor`. -/
def insertAfterElem (anchor x : Raw) : List Raw → List Raw
  | [] => [x]
  | y :: rest => if y = anchor then y :: x :: rest else y :: insertAfterElem anchor x rest

/-- Insert `x` immediately before the first occurrence of `anchor`. -/
def insertBeforeElem (anchor x : Raw) : List Raw → List Raw
  | [] => [x]
  | y :: rest => if y = anchor then x :: y :: rest else y :: insertBeforeElem anchor x rest

/-- Models `mlirBlockAppendOwnedOperation`: the engine takes the operation and
appends it to the block, setting its parent. -/
def mlirBlockAppendOwnedOperation (e : Engine) (h op : Raw) : Engine :=
  let bs := updateFirst h (fun bd => { bd with ops := bd.ops ++ [op] }) e.blocks
  let os := updateFirst op (fun od => { od with parentBlock := some h }) e.ops
  { e with blocks := bs, ops := os }

/-- Models `mlirBlockInsertOwnedOperation` (absolute position). -/
def mlirBlockInsertOwnedOperation (e : Engine) (h : Raw) (pos : Nat) (op : Raw) : Engine :=
  let bs := updateFirst h (fun bd => { bd with ops := insertAtPos pos op bd.ops }) e.blocks
  let os := updateFirst op (fun od => { od with parentBlock := some h }) e.ops
  { e with blocks := bs, ops := os }

/-- Models `mlirBlockInsertOwnedOperationAfter` (a null reference means insert
at the start of the block). -/
def mlirBlockInsertOwnedOperationAfter (e : Engine) (h anchor op : Raw) : Engine :=
  let place := fun l => if anchor = 0 then op :: l else insertAfterElem anchor op l
  let bs := updateFirst h (fun bd => { bd with ops := place bd.ops }) e.blocks
  let os := updateFirst op (fun od => { od with parentBlock := some h }) e.ops
  { e with blocks := bs, ops := os }

/-- Models `mlirBlockInsertOwnedOperationBefore` (a null reference means insert
at the end of the block). -/
def mlirBlockInsertOwnedOperationBefore (e : Engine) (h anchor op : Raw) : Engine :=
  let place := fun l => if anchor = 0 then l ++ [op] else insertBeforeElem anchor op l
  let bs := updateFirst h (fun bd => { bd with ops := place bd.ops }) e.blocks
  let os := updateFirst op (fun od => { od with parentBlock := some h }) e.ops
  { e with blocks := bs, ops := os }

/-- Models `mlirBlockEqual`: the engine compares blocks by its own pointer
equality, not by any host-side notion. -/
def mlirBlockEqual (a b : Raw) : Bool :=
  a == b

/-- Models `mlirOperationEqual`: pointer equality as defined by the engine. -/
def mlirOperationEqual (a b : Raw) : Bool :=
  a == b

/-- Models `mlirBlockDestroy`. -/
def mlirBlockDestroy (e : Engine) (h : Raw) : Engine :=
  { e with destroys := bumpFirst h e.destroys }

/-- Models `mlirOperationDestroy`. -/
def mlirOperationDestroy (e : Engine) (h : Raw) : Engine :=
  { e with destroys := bumpFirst h e.destroys }

/-- Models `mlirOperationCreate`: materializes a fresh, unattached operation
from the builder state, taking ownership of its regions. -/
def mlirOperationCreate (e : Engine) (name : String) (results regions : List Raw) :
    Engine × Raw :=
  let h := e.nextHandle + 1
  let od : OpData :=
    { name := name, results := results, regions := regions, parentBlock := none }
  let rs := regions.foldl
    (fun rs r => updateFirst r (fun rd => { rd with parentOp := some h }) rs) e.regions
  ({ e with ops := (h, od) :: e.ops, nextHandle := h, regions := rs }, h)

/-- Models `mlirOperationGetBlock` (null when unattached). -/
def mlirOperationGetBlock (e : Engine) (h : Raw) : Raw :=
  match e.opData h with
  | some od => rawOfOption od.parentBlock
  | none => 0

/-- The element following the first occurrence of `x`. -/
def nextInList (x : Raw) : List Raw → Option Raw
  | [] => none
  | y :: rest => if y = x then rest.head? else nextInList x rest

/-- Models `mlirOperationGetNextInBlock`: the following sibling inside the
parent block, null when last or unattached. -/
def mlirOperationGetNextInBlock (e : Engine) (h : Raw) : Raw :=
  match e.opData h with
  | some od =>
    match od.parentBlock with
    | some b =>
      match e.blockData b with
      | some bd => rawOfOption (nextInList h bd.ops)
      | none => 0
    | none => 0
  | none => 0

/-- Models `mlirOperationGetNumResults`. -/
def mlirOperationGetNumResults (e : Engine) (h : Raw) : Nat :=
  match e.opData h with
  | some od => od.results.length
  | none => 0

/-- Models `mlirOperationGetResult` (values are positional). -/
def mlirOperationGetResult (h : Raw) (position : Nat) : ResultValue :=
  { operation := h, position := position }

/-- Models `mlirOperationGetNumRegions`. -/
def mlirOperationGetNumRegions (e : Engine) (h : Raw) : Nat :=
  match e.opData h with
  | some od => od.regions.length
  | none => 0

/-- Models `mlirOperationGetRegion`. -/
def mlirOperationGetRegion (e : Engine) (h : Raw) (index : Nat) : Raw :=
  match e.opData h with
  | some od => od.regions.getD index 0
  | none => 0

/-! Printing. The engine renders an object by streaming text chunks through a
callback into the host formatting sink; the concrete text is engine-defined
and opaque, so we model it with a simple concrete renderer that matches the
observable shapes exercised by the crate ("<<UNLINKED BLOCK>>" for a
parentless block, the generic form for an operation). -/

/-- Chunks streamed by `mlirBlockPrint` for a block. -/
def printBlockChunks (e : Engine) (h : Raw) : List String :=
  match e.blockData h with
  | none => []
  | some bd =>
    match bd.parentRegion with
    | none => ["<<UNLINKED BLOCK>>\n"]
    | some _ => ["^bb", toString h, ":\n"]

/-- Chunks streamed by `mlirOperationPrint` for an operation. -/
def printOperationChunks (e : Engine) (h : Raw) : List String :=
  match e.opData h with
  | none => []
  | some od => ["\"" ++ od.name ++ "\"", "() : () -> ()\n"]

/-- The host formatting sink: `schedule` says whether the n-th write succeeds
(defaulting to success past the end of the schedule), `pos` counts writes
performed so far, `out` accumulates the text of the successful writes. -/
structure Formatter where
  schedule : List Bool
  pos : Nat
  out : List String
  deriving Repr, DecidableEq

/-- One write into the sink, returning the updated sink and the host
formatting result (`Except Unit Unit` models `fmt::Result`, whose error
carries no data). -/
def Formatter.write (f : Formatter) (s : String) : Formatter × Except Unit Unit :=
  let ok := f.schedule.getD f.pos true
  ({ schedule := f.schedule, pos := f.pos + 1,
     out := if ok then f.out ++ [s] else f.out },
   if ok then Except.ok () else Except.error ())

/-- Modelled from the spec: `print_callback` is imported from `crate::utility`
by `src/ir/block.rs` and `src/ir/operation.rs`, but its definition is not under
`src/`. Per the spec (sections 4.1, 7 and 9), the callback streams each
engine-emitted chunk into the host formatting sink and captures the first
write failure encountered, forwarding it to the caller of the print operation;
once a failure is recorded, later chunks are not written over it. -/
def print_callback (chunk : String) : Formatter × Except Unit Unit → Formatter × Except Unit Unit
  | (f, r) =>
    match r with
    | Except.error err => (f, Except.error err)
    | Except.ok _ => f.write chunk

/-- Models `mlirBlockPrint`: invokes the callback once per emitted chunk,
threading the callback data. -/
def mlirBlockPrint (e : Engine) (h : Raw)
    (callback : String → Formatter × Except Unit Unit → Formatter × Except Unit Unit)
    (data : Formatter × Except Unit Unit) : Formatter × Except Unit Unit :=
  (printBlockChunks e h).foldl (fun d c => callback c d) data

/-- Models `mlirOperationPrint`. -/
def mlirOperationPrint (e : Engine) (h : Raw)
    (callback : String → Formatter × Except Unit Unit → Formatter × Except Unit Unit)
    (data : Formatter × Except Unit Unit) : Formatter × Except Unit Unit :=
  (printOperationChunks e h).foldl (fun d c => callback c d) data

/-! The wrapper layer translated from `src/ir/block.rs` and
`src/ir/operation.rs`. -/

/-- A reference of a block (`BlockRef`): a copyable non-owning view carrying
the raw handle. -/
structure BlockRef where
  raw : Raw
  deriving Repr, DecidableEq

/-- A block (`Block`): the unique owner, wrapping its reference. -/
structure Block where
  ref : BlockRef
  deriving Repr, DecidableEq

/-- A reference to an operation (`OperationRef`). -/
structure OperationRef where
  raw : Raw
  deriving Repr, DecidableEq

/-- An operation (`Operation`): the unique owner, wrapping its reference. -/
structure Operation where
  ref : OperationRef
  deriving Repr, DecidableEq

/-- A reference to a region (`RegionRef`). -/
structure RegionRef where
  raw : Raw
  deriving Repr, DecidableEq

/-- Modelled from the spec: the crate error enum (`src/error.rs` is not under
`src/`); the spec (section 7) describes out-of-range positional access as a
typed failure carrying the textual form of the containing object and the
offending index, and these two variants are constructed at
`src/ir/block.rs:112` and `src/ir/operation.rs:109`. -/
inductive Error where
  | BlockArgumentPosition : String → Nat → Error
  | OperationResultPosition : String → Nat → Error
  deriving Repr, DecidableEq

/-- From `Block::new`: creates a block from (type, location) argument pairs,
splitting them into the two arrays `mlirBlockCreate` receives. -/
def Block.new (e : Engine) (arguments : List (Raw × Raw)) : Engine × Block :=
  let p := mlirBlockCreate e (arguments.map Prod.fst) (arguments.map Prod.snd)
  (p.1, { ref := { raw := p.2 } })

/-- From `Block::into_raw`: extracts the raw handle, suppressing the owner
destructor with `mem::forget` (no destroy is performed). -/
def Block.into_raw (b : Block) : Raw :=
  b.ref.raw

/-- From `impl Drop for Block`: destroys the owned block through the engine. -/
def Block.drop (e : Engine) (b : Block) : Engine :=
  mlirBlockDestroy e b.ref.raw

/-- From `BlockRef::argument_count`. -/
def BlockRef.argument_count (e : Engine) (b : BlockRef) : Nat :=
  mlirBlockGetNumArguments e b.raw

/-- From `impl Display for BlockRef`: initializes the callback data to
`(formatter, Ok(()))`, lets the engine printer stream chunks through
`print_callback`, and returns the recorded result. -/
def BlockRef.fmt (e : Engine) (b : BlockRef) (formatter : Formatter) :
    Formatter × Except Unit Unit :=
  mlirBlockPrint e b.raw print_callback (formatter, Except.ok ())

/-- From `ToString` via `Display` with an infallible `String` sink: the
concatenation of the streamed chunks. -/
def BlockRef.to_string (e : Engine) (b : BlockRef) : String :=
  String.join (printBlockChunks e b.raw)

/-- From `BlockRef::argument`: bounds-checked positional access. The engine
calls it performs (count, get, print) are all reads, so the engine state is
returned unchanged alongside the result. -/
def BlockRef.argument (e : Engine) (b : BlockRef) (position : Nat) :
    Engine × Except Error Argument :=
  if position < BlockRef.argument_count e b then
    (e, Except.ok (mlirBlockGetArgument b.raw position))
  else
    (e, Except.error (Error.BlockArgumentPosition (BlockRef.to_string e b) position))

/-- From `BlockRef::first_operation` (explicit null check). -/
def BlockRef.first_operation (e : Engine) (b : BlockRef) : Option OperationRef :=
  match optionOfRaw (mlirBlockGetFirstOperation e b.raw) with
  | some h => some { raw := h }
  | none => none

/-- From `BlockRef::parent_region` (`from_option_raw`). -/
def BlockRef.parent_region (e : Engine) (b : BlockRef) : Option RegionRef :=
  match optionOfRaw (mlirBlockGetParentRegion e b.raw) with
  | some h => some { raw := h }
  | none => none

/-- From `BlockRef::parent_operation` (`from_option_raw`). -/
def BlockRef.parent_operation (e : Engine) (b : BlockRef) : Option OperationRef :=
  match optionOfRaw (mlirBlockGetParentOperation e b.raw) with
  | some h => some { raw := h }
  | none => none

/-- From `Operation::into_raw`: extracts the raw handle, suppressing the owner
destructor with `mem::forget` (no destroy is performed). -/
def Operation.into_raw (op : Operation) : Raw :=
  op.ref.raw

/-- From `impl Drop for Operation`: destroys the owned operation through the
engine. -/
def Operation.drop (e : Engine) (op : Operation) : Engine :=
  mlirOperationDestroy e op.ref.raw

/-- From `BlockRef::append_operation`: consumes the owned operation
(`into_raw`), hands it to the engine, and returns a reference wrapping the
same raw handle. -/
def BlockRef.append_operation (e : Engine) (b : BlockRef) (operation : Operation) :
    Engine × OperationRef :=
  let op := operation.into_raw
  (mlirBlockAppendOwnedOperation e b.raw op, { raw := op })

/-- From `BlockRef::insert_operation`. -/
def BlockRef.insert_operation (e : Engine) (b : BlockRef) (position : Nat)
    (operation : Operation) : Engine × OperationRef :=
  let op := operation.into_raw
  (mlirBlockInsertOwnedOperation e b.raw position op, { raw := op })

/-- From `BlockRef::insert_operation_after`. -/
def BlockRef.insert_operation_after (e : Engine) (b : BlockRef) (one : OperationRef)
    (other : Operation) : Engine × OperationRef :=
  let op := other.into_raw
  (mlirBlockInsertOwnedOperationAfter e b.raw one.raw op, { raw := op })

/-- From `BlockRef::insert_operation_before`. -/
def BlockRef.insert_operation_before (e : Engine) (b : BlockRef) (one : OperationRef)
    (other : Operation) : Engine × OperationRef :=
  let op := other.into_raw
  (mlirBlockInsertOwnedOperationBefore e b.raw one.raw op, { raw := op })

/-- From `BlockRef::detach`: when the block has a parent region, asks the
engine to detach it and returns it as a newly owned block wrapping the same
raw handle; otherwise returns nothing. -/
def BlockRef.detach (e : Engine) (b : BlockRef) : Engine × Option Block :=
  if (BlockRef.parent_region e b).isSome then
    (mlirBlockDetach e b.raw, some { ref := { raw := b.raw } })
  else
    (e, none)

/-- From `impl PartialEq for BlockRef`: delegated to `mlirBlockEqual`. -/
def BlockRef.eq (a b : BlockRef) : Bool :=
  mlirBlockEqual a.raw b.raw

/-- From `impl PartialEq for Block`: compares the wrapped references. -/
def Block.eq (a b : Block) : Bool :=
  BlockRef.eq a.ref b.ref

/-- From `impl PartialEq for OperationRef`: delegated to
`mlirOperationEqual`. -/
def OperationRef.eq (a b : OperationRef) : Bool :=
  mlirOperationEqual a.raw b.raw

/-- From `impl PartialEq for Operation`: compares the wrapped references. -/
def Operation.eq (a b : Operation) : Bool :=
  OperationRef.eq a.ref b.ref

/-- From `OperationRef::block` (`from_option_raw`). -/
def OperationRef.block (e : Engine) (op : OperationRef) : Option BlockRef :=
  match optionOfRaw (mlirOperationGetBlock e op.raw) with
  | some h => some { raw := h }
  | none => none

/-- From `OperationRef::result_count`. -/
def OperationRef.result_count (e : Engine) (op : OperationRef) : Nat :=
  mlirOperationGetNumResults e op.raw

/-- From `impl Display for OperationRef`. -/
def OperationRef.fmt (e : Engine) (op : OperationRef) (formatter : Formatter) :
    Formatter × Except Unit Unit :=
  mlirOperationPrint e op.raw print_callback (formatter, Except.ok ())

/-- From `ToString` via `Display` with an infallible `String` sink. -/
def OperationRef.to_string (e : Engine) (op : OperationRef) : String :=
  String.join (printOperationChunks e op.raw)

/-- From `OperationRef::result`: bounds-checked positional access, an error
past the end. All engine calls performed are reads. -/
def OperationRef.result (e : Engine) (op : OperationRef) (position : Nat) :
    Engine × Except Error ResultValue :=
  if position < OperationRef.result_count e op then
    (e, Except.ok (mlirOperationGetResult op.raw position))
  else
    (e, Except.error (Error.OperationResultPosition (OperationRef.to_string e op) position))

/-- From `OperationRef::region_count`. -/
def OperationRef.region_count (e : Engine) (op : OperationRef) : Nat :=
  mlirOperationGetNumRegions e op.raw

/-- From `OperationRef::region`: bounds-checked, `none` past the end (never an
error). -/
def OperationRef.region (e : Engine) (op : OperationRef) (index : Nat) : Option RegionRef :=
  if index < OperationRef.region_count e op then
    some { raw := mlirOperationGetRegion e op.raw index }
  else
    none

/-- From `OperationRef::next_in_block` (explicit null check). -/
def OperationRef.next_in_block (e : Engine) (op : OperationRef) : Option OperationRef :=
  match optionOfRaw (mlirOperationGetNextInBlock e op.raw) with
  | some h => some { raw := h }
  | none => none

/-- Modelled from the spec: the operation builder (`src/ir/operation.rs`
declares `mod builder`, but `builder.rs` is not under `src/`). Per the spec
(section 4.4) it accumulates a name and location given at construction plus
operands, declared result types, attribute pairs and owned sub-regions, and
`build()` asks the engine to materialize a freshly owned, unattached
operation from the accumulated lists. -/
structure Builder where
  name : String
  location : Raw
  operands : List Raw
  results : List Raw
  attributes : List (String × Raw)
  regions : List Raw
  deriving Repr, DecidableEq

/-- Modelled from the spec: builder construction with the mandatory name and
location. -/
def Builder.new (name : String) (location : Raw) : Builder :=
  { name := name, location := location, operands := [], results := [],
    attributes := [], regions := [] }

/-- Modelled from the spec: declares result types. -/
def Builder.add_results (b : Builder) (results : List Raw) : Builder :=
  { b with results := b.results ++ results }

/-- Modelled from the spec: transfers ownership of sub-regions into the
builder. -/
def Builder.add_regions (b : Builder) (regions : List Raw) : Builder :=
  { b with regions := b.regions ++ regions }

/-- Modelled from the spec: `build()` materializes the operation through the
engine and returns it freshly owned and unattached. -/
def Builder.build (b : Builder) (e : Engine) : Engine × Operation :=
  let p := mlirOperationCreate e b.name b.results b.regions
  (p.1, { ref := { raw := p.2 } })

/-! Global pass registration, translated from `src/utility.rs`. -/

/-- Process-wide state for `register_all_passes`: the completion flag of the
function-local `static ONCE: Once`, and how many times the underlying engine
primitive `mlirRegisterAllPasses` has run. -/
structure ProcessState where
  passesRegistered : Bool
  engineRegistrations : Nat
  deriving Repr, DecidableEq

/-- A fresh process: the `Once` not yet fired, no registrations performed. -/
def freshProcess : ProcessState :=
  { passesRegistered := false, engineRegistrations := 0 }

/-- Models `mlirRegisterAllPasses`: the underlying engine registration
primitive (running it twice is a documented double-free hazard, which is why
the wrapper guards it). -/
def mlirRegisterAllPasses (s : ProcessState) : ProcessState :=
  { s with engineRegistrations := s.engineRegistrations + 1 }

/-- From `register_all_passes`: `ONCE.call_once(|| mlirRegisterAllPasses())` —
runs the primitive only if the `Once` has not fired yet. -/
def register_all_passes (s : ProcessState) : ProcessState :=
  if s.passesRegistered then s
  else { mlirRegisterAllPasses s with passesRegistered := true }

/-! Helper lemmas about handle tables and sequences. -/

theorem lookupFirst_updateFirst_self {β : Type} (k : Raw) (f : β → β)
    (l : List (Raw × β)) :
    lookupFirst k (updateFirst k f l) = (lookupFirst k l).map f := by
  induction l with
  | nil => rfl
  | cons hd tl ih =>
    obtain ⟨k2, v⟩ := hd
    by_cases h : k2 = k
    · simp [lookupFirst, updateFirst, h]
    · simp [lookupFirst, updateFirst, h, ih]

theorem lookupFirst_updateFirst_ne {β : Type} {k k2 : Raw} (f : β → β)
    (l : List (Raw × β)) (h : k2 ≠ k) :
    lookupFirst k2 (updateFirst k f l) = lookupFirst k2 l := by
  induction l with
  | nil => rfl
  | cons hd tl ih =>
    obtain ⟨k3, v⟩ := hd
    by_cases h3 : k3 = k
    · simp [lookupFirst, updateFirst, h3, Ne.symm h]
    · simp [lookupFirst, updateFirst, h3, ih]

theorem lookupFirst_bumpFirst_self (k : Raw) (l : List (Raw × Nat)) :
    (lookupFirst k (bumpFirst k l)).getD 0 = (lookupFirst k l).getD 0 + 1 := by
  induction l with
  | nil => simp [bumpFirst, lookupFirst]
  | cons hd tl ih =>
    obtain ⟨k2, n⟩ := hd
    by_cases h : k2 = k
    · simp [bumpFirst, lookupFirst, h]
    · simp [bumpFirst, lookupFirst, h, ih]

theorem nextInList_insertAfterElem (anchor x : Raw) (l : List Raw)
    (h : anchor ∈ l) :
    nextInList anchor (insertAfterElem anchor x l) = some x := by
  induction l with
  | nil => cases h
  | cons y rest ih =>
    by_cases hy : y = anchor
    · simp [insertAfterElem, hy, nextInList]
    · have hmem : anchor ∈ rest := by
        cases h with
        | head => exact absurd rfl hy
        | tail _ hin => exact hin
      simp [insertAfterElem, hy, nextInList, ih hmem]

theorem insertBeforeElem_head (anchor x : Raw) (l : List Raw)
    (h : l.head? = some anchor) :
    insertBeforeElem anchor x l = x :: l := by
  cases l with
  | nil => simp at h
  | cons y rest =>
    have hy : y = anchor := by simpa using h
    simp [insertBeforeElem, hy]

theorem print_callback_error (c : String) (f : Formatter) :
    print_callback c (f, Except.error ()) = (f, Except.error ()) := rfl

theorem foldl_print_callback_error (cs : List String) (f : Formatter) :
    cs.foldl (fun d c => print_callback c d) (f, Except.error ()) =
      (f, Except.error ()) := by
  induction cs generalizing f with
  | nil => rfl
  | cons c rest ih => simpa [print_callback_error] using ih f

theorem foldl_print_callback_spec (cs : List String) (f : Formatter) :
    ((cs.foldl (fun d c => print_callback c d) (f, Except.ok ())).2 = Except.ok () ↔
        ∀ i, i < cs.length → f.schedule.getD (f.pos + i) true = true) ∧
      ((∀ i, i < cs.length → f.schedule.getD (f.pos + i) true = true) →
        (cs.foldl (fun d c => print_callback c d) (f, Except.ok ())).1.out =
          f.out ++ cs) := by
  induction cs generalizing f with
  | nil => simp
  | cons c rest ih =>
    by_cases hc : f.schedule.getD f.pos true = true
    · have hstep : print_callback c (f, Except.ok ()) =
          ({ schedule := f.schedule, pos := f.pos + 1, out := f.out ++ [c] },
            Except.ok ()) := by
        show f.write c = _
        unfold Formatter.write
        rw [hc]
        simp
      have hshift : (∀ i, i < rest.length + 1 →
            f.schedule.getD (f.pos + i) true = true) ↔
          (∀ i, i < rest.length → f.schedule.getD (f.pos + 1 + i) true = true) := by
        constructor
        · intro hall i hi
          have h2 : f.pos + 1 + i = f.pos + (i + 1) := by omega
          rw [h2]
          exact hall (i + 1) (by omega)
        · intro hall i hi
          cases i with
          | zero => simpa using hc
          | succ j =>
            have h2 : f.pos + (j + 1) = f.pos + 1 + j := by omega
            rw [h2]
            exact hall j (by omega)
      have ihf := ih { schedule := f.schedule, pos := f.pos + 1, out := f.out ++ [c] }
      constructor
      · rw [List.foldl_cons, hstep, ihf.1]
        simpa using hshift.symm
      · intro hall
        rw [List.foldl_cons, hstep, ihf.2]
        · simp
        · intro i hi
          exact hshift.mp (by simpa using hall) i hi
    · have hcf : f.schedule.getD f.pos true = false := by
        cases hv : f.schedule.getD f.pos true
        · rfl
        · exact absurd hv hc
      have hstep : print_callback c (f, Except.ok ()) =
          ({ schedule := f.schedule, pos := f.pos + 1, out := f.out },
            Except.error ()) := by
        show f.write c = _
        unfold Formatter.write
        rw [hcf]
        simp
      constructor
      · rw [List.foldl_cons, hstep, foldl_print_callback_error]
        constructor
        · intro habs
          cases habs
        · intro hall
          exact absurd (by simpa using hall 0 (by simp)) hc
      · intro hall
        exact absurd (by simpa using hall 0 (by simp)) hc

/-! Concrete engine states used to exercise the theorems. -/

/-- An empty engine state. -/
def engine0 : Engine :=
  { blocks := [], ops := [], regions := [], nextHandle := 0, destroys := [] }

/-- An engine state in which region 2 contains block 1. -/
def engineAttached : Engine :=
  { blocks := [(1, { argTypes := [], argLocs := [], ops := [], parentRegion := some 2 })],
    ops := [],
    regions := [(2, { blocks := [1], parentOp := none })],
    nextHandle := 2,
    destroys := [] }

/-- An engine state in which unattached block 1 contains operation 2, and
operation 3 is owned and unattached. -/
def engineBlockOps : Engine :=
  { blocks := [(1, { argTypes := [], argLocs := [], ops := [2], parentRegion := none })],
    ops := [(2, { name := "foo", results := [], regions := [], parentBlock := some 1 }),
            (3, { name := "bar", results := [], regions := [], parentBlock := none })],
    regions := [],
    nextHandle := 3,
    destroys := [] }

/-! The claims. -/

/-- C1: for every block, calling `detach()` when the block has a parent region
removes it from that region and returns `some` newly owned, unattached block
(wrapping the same handle) whose subsequent `parent_region()` is `none`;
calling `detach()` on a block with no parent region returns `none`. -/
theorem detach_attached_some_unattached_none (e : Engine) (b : BlockRef) :
    (∀ blk : Block, (BlockRef.detach e b).2 = some blk →
      blk.ref.raw = b.raw ∧
        BlockRef.parent_region (BlockRef.detach e b).1 blk.ref = none) ∧
    ((BlockRef.parent_region e b).isSome ↔ ((BlockRef.detach e b).2).isSome) ∧
    (BlockRef.parent_region e b = none → BlockRef.detach e b = (e, none)) := by
  cases hbd : e.blockData b.raw with
  | none =>
    have hpr : BlockRef.parent_region e b = none := by
      simp [BlockRef.parent_region, mlirBlockGetParentRegion, hbd, optionOfRaw]
    have hd : BlockRef.detach e b = (e, none) := by
      simp [BlockRef.detach, hpr]
    refine ⟨?_, ?_, fun _ => hd⟩
    · intro blk hblk
      rw [hd] at hblk
      simp at hblk
    · rw [hd, hpr]
      simp
  | some bd =>
    cases hrr : bd.parentRegion with
    | none =>
      have hpr : BlockRef.parent_region e b = none := by
        simp [BlockRef.parent_region, mlirBlockGetParentRegion, hbd, hrr, rawOfOption,
          optionOfRaw]
      have hd : BlockRef.detach e b = (e, none) := by
        simp [BlockRef.detach, hpr]
      refine ⟨?_, ?_, fun _ => hd⟩
      · intro blk hblk
        rw [hd] at hblk
        simp at hblk
      · rw [hd, hpr]
        simp
    | some r =>
      by_cases hr0 : r = 0
      · have hpr : BlockRef.parent_region e b = none := by
          simp [BlockRef.parent_region, mlirBlockGetParentRegion, hbd, hrr, rawOfOption,
            optionOfRaw, hr0]
        have hd : BlockRef.detach e b = (e, none) := by
          simp [BlockRef.detach, hpr]
        refine ⟨?_, ?_, fun _ => hd⟩
        · intro blk hblk
          rw [hd] at hblk
          simp at hblk
        · rw [hd, hpr]
          simp
      · have hpr : BlockRef.parent_region e b = some { raw := r } := by
          simp [BlockRef.parent_region, mlirBlockGetParentRegion, hbd, hrr, rawOfOption,
            optionOfRaw, hr0]
        have hdet : BlockRef.detach e b =
            (mlirBlockDetach e b.raw, some { ref := { raw := b.raw } }) := by
          simp [BlockRef.detach, hpr]
        have hbd2 : (mlirBlockDetach e b.raw).blockData b.raw =
            some { bd with parentRegion := none } := by
          unfold mlirBlockDetach
          rw [show e.blockData b.raw = some bd from hbd]
          have hlk : lookupFirst b.raw e.blocks = some bd := hbd
          simp [hrr, Engine.blockData, lookupFirst_updateFirst_self, hlk]
        refine ⟨?_, ?_, ?_⟩
        · intro blk hblk
          rw [hdet] at hblk
          cases hblk
          refine ⟨rfl, ?_⟩
          rw [hdet]
          simp [BlockRef.parent_region, mlirBlockGetParentRegion, hbd2, rawOfOption,
            optionOfRaw]
        · rw [hdet, hpr]
          simp
        · intro habs
          rw [hpr] at habs
          cases habs

/-- Witness for C1 at a concrete attached block and a concrete unattached
block. -/
theorem detach_attached_some_unattached_none_witness :
    BlockRef.parent_region (BlockRef.detach engineAttached { raw := 1 }).1
        { raw := 1 } = none ∧
      BlockRef.detach engineBlockOps { raw := 1 } = (engineBlockOps, none) :=
  ⟨((detach_attached_some_unattached_none engineAttached { raw := 1 }).1
      { ref := { raw := 1 } } (by decide)).2,
    (detach_attached_some_unattached_none engineBlockOps { raw := 1 }).2.2 (by decide)⟩

/-- C2: for every `n ≥ 0` and every block constructed via `Block::new` with
`n` (type, location) argument pairs, `argument_count()` returns `n`,
`argument(i)` returns `Ok` (of the value at position `i`) for every `i < n`,
and `argument(i)` returns an out-of-range error carrying the block's textual
form and the requested position for every `i ≥ n`. -/
theorem block_new_argument_count_and_bounds (e : Engine) (arguments : List (Raw × Raw)) :
    BlockRef.argument_count (Block.new e arguments).1 (Block.new e arguments).2.ref =
        arguments.length ∧
    (∀ i, i < arguments.length →
      (BlockRef.argument (Block.new e arguments).1 (Block.new e arguments).2.ref i).2 =
        Except.ok (mlirBlockGetArgument (Block.new e arguments).2.ref.raw i)) ∧
    (∀ i, arguments.length ≤ i →
      (BlockRef.argument (Block.new e arguments).1 (Block.new e arguments).2.ref i).2 =
        Except.error (Error.BlockArgumentPosition
          (BlockRef.to_string (Block.new e arguments).1 (Block.new e arguments).2.ref)
          i)) := by
  have hcount : BlockRef.argument_count (Block.new e arguments).1
      (Block.new e arguments).2.ref = arguments.length := by
    simp [Block.new, mlirBlockCreate, BlockRef.argument_count, mlirBlockGetNumArguments,
      Engine.blockData, lookupFirst]
  refine ⟨hcount, ?_, ?_⟩
  · intro i hi
    simp [BlockRef.argument, hcount, hi]
  · intro i hi
    simp [BlockRef.argument, hcount, Nat.not_lt.mpr hi]

/-- Witness for C2 on a one-argument block: position 0 succeeds, position 1
fails with the out-of-range error. -/
theorem block_new_argument_count_and_bounds_witness :
    (BlockRef.argument (Block.new engine0 [(7, 8)]).1 (Block.new engine0 [(7, 8)]).2.ref
        0).2 = Except.ok (mlirBlockGetArgument (Block.new engine0 [(7, 8)]).2.ref.raw 0) ∧
      (BlockRef.argument (Block.new engine0 [(7, 8)]).1
          (Block.new engine0 [(7, 8)]).2.ref 1).2 =
        Except.error (Error.BlockArgumentPosition
          (BlockRef.to_string (Block.new engine0 [(7, 8)]).1
            (Block.new engine0 [(7, 8)]).2.ref) 1) :=
  ⟨(block_new_argument_count_and_bounds engine0 [(7, 8)]).2.1 0 (by decide),
    (block_new_argument_count_and_bounds engine0 [(7, 8)]).2.2 1 (by decide)⟩

/-- C3: for every block and operations `a` (already in the block, engine
handles being non-null) and `b` (owned, unattached): after
`insert_operation_after(a, b)`, `a.next_in_block()` is `some` of the returned
reference to `b`; after `insert_operation_before(a, b)` where `a` was
previously the first operation, `first_operation()` is `some` of the returned
reference to `b` and `b.next_in_block()` is `some a`. -/
theorem insert_operation_after_before_links (e : Engine) (blk : BlockRef)
    (a : OperationRef) (b : Operation) {bd : BlockData} {ad od : OpData}
    (hbd : e.blockData blk.raw = some bd)
    (ha : e.opData a.raw = some ad)
    (hamem : a.raw ∈ bd.ops)
    (hapar : ad.parentBlock = some blk.raw)
    (hb : e.opData b.ref.raw = some od)
    (hbpar : od.parentBlock = none)
    (ha0 : a.raw ≠ 0) (hb0 : b.ref.raw ≠ 0) :
    OperationRef.next_in_block (BlockRef.insert_operation_after e blk a b).1 a =
        some (BlockRef.insert_operation_after e blk a b).2 ∧
      (bd.ops.head? = some a.raw →
        BlockRef.first_operation (BlockRef.insert_operation_before e blk a b).1 blk =
            some (BlockRef.insert_operation_before e blk a b).2 ∧
          OperationRef.next_in_block (BlockRef.insert_operation_before e blk a b).1
            (BlockRef.insert_operation_before e blk a b).2 = some a) := by
  have hne : a.raw ≠ b.ref.raw := by
    intro hcontr
    rw [hcontr, hb] at ha
    cases ha
    rw [hbpar] at hapar
    cases hapar
  constructor
  · -- insert_operation_after: a.next_in_block = some (the new reference)
    have hops : (BlockRef.insert_operation_after e blk a b).1.opData a.raw = some ad := by
      simp only [BlockRef.insert_operation_after, mlirBlockInsertOwnedOperationAfter,
        Operation.into_raw, Engine.opData]
      rw [lookupFirst_updateFirst_ne _ _ hne]
      exact ha
    have hblk2 : (BlockRef.insert_operation_after e blk a b).1.blockData blk.raw =
        some { bd with ops := insertAfterElem a.raw b.ref.raw bd.ops } := by
      simp only [BlockRef.insert_operation_after, mlirBlockInsertOwnedOperationAfter,
        Operation.into_raw, Engine.blockData]
      rw [lookupFirst_updateFirst_self]
      rw [show lookupFirst blk.raw e.blocks = some bd from hbd]
      simp [ha0]
    simp only [OperationRef.next_in_block, mlirOperationGetNextInBlock, hops, hapar, hblk2]
    rw [nextInList_insertAfterElem _ _ _ hamem]
    simp [rawOfOption, optionOfRaw, hb0, BlockRef.insert_operation_after,
      Operation.into_raw]
  · -- insert_operation_before when a was first
    intro hfirst
    have hlist : insertBeforeElem a.raw b.ref.raw bd.ops = b.ref.raw :: bd.ops :=
      insertBeforeElem_head _ _ _ hfirst
    have hblk2 : (BlockRef.insert_operation_before e blk a b).1.blockData blk.raw =
        some { bd with ops := b.ref.raw :: bd.ops } := by
      simp only [BlockRef.insert_operation_before, mlirBlockInsertOwnedOperationBefore,
        Operation.into_raw, Engine.blockData]
      rw [lookupFirst_updateFirst_self]
      rw [show lookupFirst blk.raw e.blocks = some bd from hbd]
      simp [ha0, hlist]
    have hopb : (BlockRef.insert_operation_before e blk a b).1.opData b.ref.raw =
        some { od with parentBlock := some blk.raw } := by
      simp only [BlockRef.insert_operation_before, mlirBlockInsertOwnedOperationBefore,
        Operation.into_raw, Engine.opData]
      rw [lookupFirst_updateFirst_self]
      rw [show lookupFirst b.ref.raw e.ops = some od from hb]
      rfl
    constructor
    · simp only [BlockRef.first_operation, mlirBlockGetFirstOperation, hblk2]
      simp [rawOfOption, optionOfRaw, hb0, BlockRef.insert_operation_before,
        Operation.into_raw]
    · simp only [OperationRef.next_in_block, mlirOperationGetNextInBlock,
        BlockRef.insert_operation_before, Operation.into_raw] at hopb hblk2 ⊢
      simp only [hopb, hblk2]
      simp [nextInList, rawOfOption, optionOfRaw, ha0, hfirst]

/-- Witness for C3: in a concrete engine, inserting owned operation 3 after
resp. before the sole operation 2 of block 1 establishes the sibling links. -/
theorem insert_operation_after_before_links_witness :
    OperationRef.next_in_block
        (BlockRef.insert_operation_after engineBlockOps { raw := 1 } { raw := 2 }
          { ref := { raw := 3 } }).1 { raw := 2 } =
      some (BlockRef.insert_operation_after engineBlockOps { raw := 1 } { raw := 2 }
          { ref := { raw := 3 } }).2 ∧
      BlockRef.first_operation
          (BlockRef.insert_operation_before engineBlockOps { raw := 1 } { raw := 2 }
            { ref := { raw := 3 } }).1 { raw := 1 } =
        some (BlockRef.insert_operation_before engineBlockOps { raw := 1 } { raw := 2 }
            { ref := { raw := 3 } }).2 := by
  have h := insert_operation_after_before_links engineBlockOps { raw := 1 } { raw := 2 }
    { ref := { raw := 3 } } rfl rfl (by decide) rfl rfl rfl (by decide) (by decide)
  exact ⟨h.1, (h.2 (by decide)).1⟩

/-- C4: every freshly constructed block (`Block::new`) and every freshly
built, never-attached operation (builder `build()`) returns `none` from each
parent-lookup query: `parent_region()` and `parent_operation()` on the block,
and `block()` on the operation. -/
theorem fresh_objects_have_no_parent (e : Engine) (arguments : List (Raw × Raw))
    (bld : Builder) :
    BlockRef.parent_region (Block.new e arguments).1 (Block.new e arguments).2.ref =
        none ∧
      BlockRef.parent_operation (Block.new e arguments).1
          (Block.new e arguments).2.ref = none ∧
        OperationRef.block (Builder.build bld e).1 (Builder.build bld e).2.ref =
          none := by
  refine ⟨?_, ?_, ?_⟩
  · simp [Block.new, mlirBlockCreate, BlockRef.parent_region, mlirBlockGetParentRegion,
      Engine.blockData, lookupFirst, rawOfOption, optionOfRaw]
  · simp [Block.new, mlirBlockCreate, BlockRef.parent_operation,
      mlirBlockGetParentOperation, Engine.blockData, lookupFirst, rawOfOption,
      optionOfRaw]
  · simp [Builder.build, mlirOperationCreate, OperationRef.block, mlirOperationGetBlock,
      Engine.opData, lookupFirst, rawOfOption, optionOfRaw]

/-- C5: equality on both the owning types (`Block`, `Operation`) and the
reference types (`BlockRef`, `OperationRef`) is the engine's structural
equality predicate (`mlirBlockEqual` / `mlirOperationEqual`), not
host-language identity; any two references obtained from the same underlying
engine object (hence carrying the same handle) compare equal, and the owning
type's equality agrees with its reference type's equality. -/
theorem equality_delegates_to_engine :
    (∀ a b : BlockRef, BlockRef.eq a b = mlirBlockEqual a.raw b.raw) ∧
      (∀ a b : OperationRef, OperationRef.eq a b = mlirOperationEqual a.raw b.raw) ∧
      (∀ a b : BlockRef, a.raw = b.raw → BlockRef.eq a b = true) ∧
      (∀ a b : OperationRef, a.raw = b.raw → OperationRef.eq a b = true) ∧
      (∀ a b : Block, Block.eq a b = BlockRef.eq a.ref b.ref) ∧
      (∀ a b : Operation, Operation.eq a b = OperationRef.eq a.ref b.ref) := by
  refine ⟨fun a b => rfl, fun a b => rfl, ?_, ?_, fun a b => rfl, fun a b => rfl⟩
  · intro a b h
    simp [BlockRef.eq, mlirBlockEqual, h]
  · intro a b h
    simp [OperationRef.eq, mlirOperationEqual, h]

/-- Witness for C5: two distinct host-side references carrying the same
handle compare equal. -/
theorem equality_delegates_to_engine_witness :
    BlockRef.eq { raw := 5 } { raw := 5 } = true ∧
      OperationRef.eq { raw := 9 } { raw := 9 } = true :=
  ⟨equality_delegates_to_engine.2.2.1 { raw := 5 } { raw := 5 } rfl,
    equality_delegates_to_engine.2.2.2.1 { raw := 9 } { raw := 9 } rfl⟩

/-- C6: for every operation, `region(index)` returns `some` region reference
when `index < region_count()` and `none` when `index ≥ region_count()`, never
an error — while `result(position)` returns a typed error when
`position ≥ result_count()`. -/
theorem region_soft_absence_result_error (e : Engine) (op : OperationRef) (i : Nat) :
    (i < OperationRef.region_count e op → (OperationRef.region e op i).isSome) ∧
      (OperationRef.region_count e op ≤ i → OperationRef.region e op i = none) ∧
      (OperationRef.result_count e op ≤ i → (OperationRef.result e op i).2 =
        Except.error (Error.OperationResultPosition (OperationRef.to_string e op) i)) := by
  refine ⟨?_, ?_, ?_⟩
  · intro hi
    simp [OperationRef.region, hi]
  · intro hi
    simp [OperationRef.region, Nat.not_lt.mpr hi]
  · intro hi
    simp [OperationRef.result, Nat.not_lt.mpr hi]

/-- Witness for C6 on a concrete operation with no regions and no results. -/
theorem region_soft_absence_result_error_witness :
    OperationRef.region engineBlockOps { raw := 2 } 0 = none ∧
      (OperationRef.result engineBlockOps { raw := 2 } 0).2 =
        Except.error (Error.OperationResultPosition
          (OperationRef.to_string engineBlockOps { raw := 2 }) 0) :=
  ⟨(region_soft_absence_result_error engineBlockOps { raw := 2 } 0).2.1 (by decide),
    (region_soft_absence_result_error engineBlockOps { raw := 2 } 0).2.2 (by decide)⟩

/-- C7: for every block and operation, the `Display` implementation streams
the engine-emitted chunks into the host formatting sink and returns success
exactly when every write into the sink succeeded (so the first write error
raised by the sink is surfaced to the caller, not swallowed); on success the
sink has received exactly the engine-emitted chunks, in order. -/
theorem display_surfaces_sink_errors (e : Engine) (b : BlockRef) (op : OperationRef)
    (f g : Formatter) :
    ((BlockRef.fmt e b f).2 = Except.ok () ↔
        ∀ i, i < (printBlockChunks e b.raw).length →
          f.schedule.getD (f.pos + i) true = true) ∧
      ((BlockRef.fmt e b f).2 ≠ Except.ok () → (BlockRef.fmt e b f).2 = Except.error ()) ∧
      ((∀ i, i < (printBlockChunks e b.raw).length →
          f.schedule.getD (f.pos + i) true = true) →
        (BlockRef.fmt e b f).1.out = f.out ++ printBlockChunks e b.raw) ∧
      ((OperationRef.fmt e op g).2 = Except.ok () ↔
        ∀ i, i < (printOperationChunks e op.raw).length →
          g.schedule.getD (g.pos + i) true = true) ∧
      ((∀ i, i < (printOperationChunks e op.raw).length →
          g.schedule.getD (g.pos + i) true = true) →
        (OperationRef.fmt e op g).1.out = g.out ++ printOperationChunks e op.raw) := by
  have hb := foldl_print_callback_spec (printBlockChunks e b.raw) f
  have ho := foldl_print_callback_spec (printOperationChunks e op.raw) g
  refine ⟨hb.1, ?_, hb.2, ho.1, ho.2⟩
  intro hne
  cases hv : (BlockRef.fmt e b f).2 with
  | ok u => exact absurd (by rw [hv]) hne
  | error u => rfl

/-- Witness for C7: with an empty (always-succeeding) schedule, printing a
concrete block streams its text into the sink and succeeds. -/
theorem display_surfaces_sink_errors_witness :
    (BlockRef.fmt engineBlockOps { raw := 1 }
        { schedule := [], pos := 0, out := [] }).1.out =
      [] ++ printBlockChunks engineBlockOps 1 :=
  (display_surfaces_sink_errors engineBlockOps { raw := 1 } { raw := 2 }
      { schedule := [], pos := 0, out := [] }
      { schedule := [], pos := 0, out := [] }).2.2.1 (by
    intro i hi
    simp [List.getD])

/-- C8: within one process, `register_all_passes()` is safe to repeat any
number of times, and the underlying engine registration primitive runs
exactly once — on the first call, never again on subsequent calls (a state
with the `Once` already fired is a fixed point). -/
theorem register_all_passes_runs_once (n : Nat) (h : 1 ≤ n) :
    (Nat.iterate register_all_passes n freshProcess).engineRegistrations = 1 ∧
      (Nat.iterate register_all_passes n freshProcess).passesRegistered = true ∧
      ∀ s : ProcessState, s.passesRegistered = true → register_all_passes s = s := by
  have hfix : ∀ s : ProcessState, s.passesRegistered = true →
      register_all_passes s = s := by
    intro s hs
    simp [register_all_passes, hs]
  have hfirst : register_all_passes freshProcess =
      { passesRegistered := true, engineRegistrations := 1 } := by
    simp [register_all_passes, freshProcess, mlirRegisterAllPasses]
  have hiter : ∀ m : Nat, Nat.iterate register_all_passes m
      { passesRegistered := true, engineRegistrations := 1 } =
      { passesRegistered := true, engineRegistrations := 1 } := by
    intro m
    induction m with
    | zero => rfl
    | succ k ih =>
      rw [Function.iterate_succ_apply, hfix _ rfl, ih]
  obtain ⟨m, rfl⟩ : ∃ m, n = m + 1 := ⟨n - 1, by omega⟩
  rw [Function.iterate_succ_apply, hfirst, hiter]
  exact ⟨rfl, rfl, hfix⟩

/-- Witness for C8: three repeated calls leave exactly one engine
registration. -/
theorem register_all_passes_runs_once_witness :
    (Nat.iterate register_all_passes 3 freshProcess).engineRegistrations = 1 :=
  (register_all_passes_runs_once 3 (by decide)).1

/-- C9: every attach operation that consumes an owned `Operation`
(`append_operation`, `insert_operation`, `insert_operation_after`,
`insert_operation_before`) extracts the raw handle via `into_raw` (which
suppresses the owner's destructor with `mem::forget`), performs no engine
destroy call (every per-handle destroy count is unchanged), and returns a
reference wrapping exactly the raw handle of the consumed operation; the
owner's destructor itself (`Operation::drop`) is what performs the single
engine destroy. -/
theorem attach_suppresses_destructor (e : Engine) (b : BlockRef) (anchor : OperationRef)
    (op : Operation) (pos : Nat) :
    ((BlockRef.append_operation e b op).2 = { raw := op.into_raw } ∧
        ∀ h, (BlockRef.append_operation e b op).1.destroyCount h = e.destroyCount h) ∧
      ((BlockRef.insert_operation e b pos op).2 = { raw := op.into_raw } ∧
        ∀ h, (BlockRef.insert_operation e b pos op).1.destroyCount h = e.destroyCount h) ∧
      ((BlockRef.insert_operation_after e b anchor op).2 = { raw := op.into_raw } ∧
        ∀ h, (BlockRef.insert_operation_after e b anchor op).1.destroyCount h =
          e.destroyCount h) ∧
      ((BlockRef.insert_operation_before e b anchor op).2 = { raw := op.into_raw } ∧
        ∀ h, (BlockRef.insert_operation_before e b anchor op).1.destroyCount h =
          e.destroyCount h) ∧
      (Operation.drop e op).destroyCount op.ref.raw = e.destroyCount op.ref.raw + 1 := by
  refine ⟨⟨rfl, fun h => rfl⟩, ⟨rfl, fun h => rfl⟩, ⟨rfl, fun h => rfl⟩,
    ⟨rfl, fun h => rfl⟩, ?_⟩
  simp only [Operation.drop, mlirOperationDestroy, Engine.destroyCount]
  exact lookupFirst_bumpFirst_self op.ref.raw e.destroys

/-- C10: a failed positional access is atomic and read-only: for every block
and out-of-range position, `argument(position)` returns `Err` and leaves the
engine state (hence `argument_count()` and all existing arguments) unchanged;
likewise `result(position)` on an operation returns `Err` with
`result_count()` and all results unchanged. -/
theorem failed_access_is_read_only (e : Engine) (b : BlockRef) (op : OperationRef)
    (i j : Nat) (hi : BlockRef.argument_count e b ≤ i)
    (hj : OperationRef.result_count e op ≤ j) :
    BlockRef.argument e b i =
        (e, Except.error (Error.BlockArgumentPosition (BlockRef.to_string e b) i)) ∧
      BlockRef.argument_count (BlockRef.argument e b i).1 b =
        BlockRef.argument_count e b ∧
      (∀ k, BlockRef.argument (BlockRef.argument e b i).1 b k =
        BlockRef.argument e b k) ∧
      OperationRef.result e op j =
        (e, Except.error (Error.OperationResultPosition (OperationRef.to_string e op) j)) ∧
      OperationRef.result_count (OperationRef.result e op j).1 op =
        OperationRef.result_count e op ∧
      (∀ k, OperationRef.result (OperationRef.result e op j).1 op k =
        OperationRef.result e op k) := by
  have hba : BlockRef.argument e b i =
      (e, Except.error (Error.BlockArgumentPosition (BlockRef.to_string e b) i)) := by
    simp [BlockRef.argument, Nat.not_lt.mpr hi]
  have hor : OperationRef.result e op j =
      (e, Except.error (Error.OperationResultPosition (OperationRef.to_string e op) j)) := by
    simp [OperationRef.result, Nat.not_lt.mpr hj]
  rw [hba, hor]
  exact ⟨rfl, rfl, fun k => rfl, rfl, rfl, fun k => rfl⟩

/-- Witness for C10 on a concrete block and operation with no arguments and
no results: position 0 is out of range and the engine state is returned
unchanged. -/
theorem failed_access_is_read_only_witness :
    BlockRef.argument engineBlockOps { raw := 1 } 0 =
        (engineBlockOps, Except.error (Error.BlockArgumentPosition
          (BlockRef.to_string engineBlockOps { raw := 1 }) 0)) ∧
      OperationRef.result engineBlockOps { raw := 2 } 0 =
        (engineBlockOps, Except.error (Error.OperationResultPosition
          (OperationRef.to_string engineBlockOps { raw := 2 }) 0)) := by
  have h := failed_access_is_read_only engineBlockOps { raw := 1 } { raw := 2 } 0 0
    (by decide) (by decide)
  exact ⟨h.1, h.2.2.2.1⟩

end Melior
